import Mathlib

/-!
Verification of the `gen_header.py` implementation-to-header synthesizer
(`src/scripts/gen_header.py`).  Python strings are shallowly embedded as
lists of characters; the `re` patterns of the source are embedded as
executable matchers with the exact backtracking semantics of the
originals (ASCII model of the `\s` / `\w` classes).
-/

namespace GenHeader

/-- One line of text: Python strings are embedded as lists of characters. -/
abbrev Str := List Char

/-- Character list of a Lean string literal. -/
def str (s : String) : Str := s.data

/-- ASCII model of the regex class `\s` (Python whitespace). -/
def isWS (c : Char) : Bool :=
  c = ' ' || c = '\t' || c = '\n' || c = '\r' || c = '\x0b' || c = '\x0c'

/-- ASCII model of the regex class `\w` (letters, digits, underscore). -/
def isWordChar (c : Char) : Bool := c.isAlpha || c.isDigit || c = '_'

/-- The class `[a-zA-Z_]` heading identifiers in the source's regexes. -/
def isIdentStart (c : Char) : Bool := c.isAlpha || c = '_'

/-- Negated newline class: what `.` may match inside a single line. -/
def notNL (c : Char) : Bool := !(c = '\n')

/-- The class `[^)]` of the parameter group of `func_pattern`. -/
def notParen (c : Char) : Bool := !(c = ')')

/-- The class `[>"]` closing the captured name of `include_pattern`. -/
def isCloseQuote (c : Char) : Bool := c = '>' || c = '"'

/-- Python `str.strip()`: remove leading and trailing whitespace. -/
def strip (s : Str) : Str := ((s.dropWhile isWS).reverse.dropWhile isWS).reverse

/-- Match a literal string at the head of the input; on success return the
remaining input. -/
def dropLit : Str → Str → Option Str
  | [], s => some s
  | _ :: _, [] => none
  | c :: cs, d :: ds => if c = d then dropLit cs ds else none

/-- `include_pattern = re.compile(r'^\s*#include\s+[<"](.+)[>"]')` used with
`re.match` (gen_header.py line 14): skip leading whitespace, the literal
`#include`, at least one whitespace character, an opening `<` or `"`, and then
the greedy group `(.+)` followed by `[>"]` — the group captures everything up
to the LAST `>` or `"` of the line (newline excluded by `.`), and must be
non-empty.  Returns group 1. -/
def include_capture (l : Str) : Option Str :=
  match dropLit (str "#include") (l.dropWhile isWS) with
  | none => none
  | some rest =>
    match rest with
    | [] => none
    | c :: _ =>
      if isWS c then
        match rest.dropWhile isWS with
        | [] => none
        | b :: r =>
          if b = '<' || b = '"' then
            match ((r.takeWhile notNL).reverse.dropWhile (fun c => !isCloseQuote c)) with
            | [] => none
            | _ :: tail => if tail = [] then none else some tail.reverse
          else none
      else none

/-- `define_pattern = re.compile(r'^\s*#define\s+(MANGANESE_(?:BEGIN|END)).*')`
(gen_header.py line 17): skip whitespace, literal `#define`, at least one
whitespace character, then the prefix `MANGANESE_BEGIN` (tried first) or
`MANGANESE_END`; the trailing `.*` always succeeds.  Returns group 1. -/
def define_capture (l : Str) : Option Str :=
  match dropLit (str "#define") (l.dropWhile isWS) with
  | none => none
  | some rest =>
    match rest with
    | [] => none
    | c :: _ =>
      if isWS c then
        match dropLit (str "MANGANESE_BEGIN") (rest.dropWhile isWS) with
        | some _ => some (str "MANGANESE_BEGIN")
        | none =>
          match dropLit (str "MANGANESE_END") (rest.dropWhile isWS) with
          | some _ => some (str "MANGANESE_END")
          | none => none
      else none

/-- `namespace_pattern = re.compile(r'^\s*namespace\s+([a-zA-Z_][\w]*)\s*\{')`
(gen_header.py line 16): skip whitespace, literal `namespace`, at least one
whitespace character, an identifier (captured), optional whitespace, `{`. -/
def namespace_capture (l : Str) : Option Str :=
  match dropLit (str "namespace") (l.dropWhile isWS) with
  | none => none
  | some rest =>
    match rest with
    | [] => none
    | c :: _ =>
      if isWS c then
        match rest.dropWhile isWS with
        | [] => none
        | b :: r =>
          if isIdentStart b then
            match (r.dropWhile isWordChar).dropWhile isWS with
            | '{' :: _ => some (b :: r.takeWhile isWordChar)
            | _ => none
          else none
      else none

/-- The part of `func_pattern` after the lazy return-type group:
`\s+([a-zA-Z_][\w]*)\s*\(([^)]*)\)\s*\{`.  All quantifiers here are
deterministic (each greedy run is followed by a character disjoint from the
repeated class), so this is a straight parse.  Returns groups 2 and 3. -/
def parseAfterRT (s : Str) : Option (Str × Str) :=
  if s.takeWhile isWS = [] then none
  else
    match s.dropWhile isWS with
    | [] => none
    | c :: r =>
      if isIdentStart c then
        match (r.dropWhile isWordChar).dropWhile isWS with
        | '(' :: r2 =>
          match r2.dropWhile notParen with
          | ')' :: r3 =>
            match r3.dropWhile isWS with
            | '{' :: _ => some (c :: r.takeWhile isWordChar, r2.takeWhile notParen)
            | _ => none
          | _ => none
        | _ => none
      else none

/-- The lazy group-1 search of `func_pattern`: extend the return-type capture
one character at a time (through the class `W`), trying the deterministic tail
`parseAfterRT` at each position; the first success wins (lazy `*?`).
`acc` holds the reversed characters captured so far. -/
def searchRT (W : Char → Bool) (acc : Str) : Str → Option (Str × Str × Str)
  | [] =>
    match parseAfterRT [] with
    | some (nm, args) => some (acc.reverse, nm, args)
    | none => none
  | c :: rest =>
    match parseAfterRT (c :: rest) with
    | some (nm, args) => some (acc.reverse, nm, args)
    | none => if W c then searchRT W (c :: acc) rest else none

/-- `func_pattern` match with the return-type character class `W`:
`^\s*([a-zA-Z_]W*?)\s+([a-zA-Z_][\w]*)\s*\(([^)]*)\)\s*\{` under `re.match`.
Returns the three captured groups. -/
def funcMatchW (W : Char → Bool) (l : Str) : Option (Str × Str × Str) :=
  match l.dropWhile isWS with
  | [] => none
  | c :: rest => if isIdentStart c then searchRT W [c] rest else none

/-- The return-type class `[\w:<>\s*&]` of `func_pattern`
(gen_header.py line 15). -/
def rtClassCode (c : Char) : Bool :=
  isWordChar c || c = ':' || c = '<' || c = '>' || isWS c || c = '*' || c = '&'

/-- The return-type token set as the specification states it ("letters,
digits, underscore, `*`, `&`, `<`, `>`, and whitespace" — no colon). -/
def rtClassClaim (c : Char) : Bool :=
  isWordChar c || c = '<' || c = '>' || isWS c || c = '*' || c = '&'

/-- `func_pattern = re.compile(r'^\s*([a-zA-Z_][\w:<>\s*&]*?)\s+([a-zA-Z_][\w]*)\s*\(([^)]*)\)\s*\{')`
(gen_header.py line 15), used with `re.match`. -/
def funcMatch : Str → Option (Str × Str × Str) := funcMatchW rtClassCode

/-- Declarative single-line shape
`<return-type-tokens> <identifier>(<parameter-text>) {` with return-type
token class `W`: optional leading whitespace, a return-type token run headed
by a letter or underscore and continued through `W`, mandatory whitespace, an
identifier, optional whitespace, a parenthesized parameter text free of `)`,
optional whitespace, an opening brace, and arbitrary trailing text. -/
def IsFuncShape (W : Char → Bool) (l : Str) : Prop :=
  ∃ w0 c rt1 w1 d idt w2 params w3 rest,
    l = w0 ++ (c :: rt1) ++ w1 ++ (d :: idt) ++ w2 ++ '(' :: params ++ ')' :: w3 ++ '{' :: rest
    ∧ (∀ x ∈ w0, isWS x = true) ∧ isIdentStart c = true ∧ (∀ x ∈ rt1, W x = true)
    ∧ w1 ≠ [] ∧ (∀ x ∈ w1, isWS x = true)
    ∧ isIdentStart d = true ∧ (∀ x ∈ idt, isWordChar x = true)
    ∧ (∀ x ∈ w2, isWS x = true) ∧ (∀ x ∈ params, notParen x = true)
    ∧ (∀ x ∈ w3, isWS x = true)

/-- The synthesized prototype of gen_header.py lines 31-34:
`f"\x7breturn_type\x7d \x7bname\x7d(\x7bargs\x7d);"` with each captured group stripped. -/
def mkDeclaration (rt nm args : Str) : Str :=
  strip rt ++ str " " ++ strip nm ++ str "(" ++ strip args ++ str ");"

/-- Structural category of one source line, in the precedence order of the
`if/elif` chain of `extract_includes_and_declarations`
(gen_header.py lines 19-37). -/
inductive LineClass where
  | incKept (text : Str)
  | incSelf
  | macroLine (text : Str)
  | funcLine (rt nm args : Str)
  | nsLine (id : Str)
  | other
deriving DecidableEq, Repr

/-- Whether a classified line landed in the function-definition category. -/
def isFuncLine : LineClass → Bool
  | LineClass.funcLine _ _ _ => true
  | _ => false

/-- Classify one line: include directive first (self-include dropped when the
captured name equals `source_filename`), then macro marker, then function
definition, then namespace opening, else insignificant. -/
def classifyLine (source_filename : Str) (line : Str) : LineClass :=
  match include_capture line with
  | some inc =>
    if inc = source_filename then LineClass.incSelf else LineClass.incKept (strip line)
  | none =>
    match define_capture line with
    | some _ => LineClass.macroLine (strip line)
    | none =>
      match funcMatch line with
      | some (rt, nm, args) => LineClass.funcLine rt nm args
      | none =>
        match namespace_capture line with
        | some ns => LineClass.nsLine (strip ns)
        | none => LineClass.other

/-- The four ordered sequences produced by one scan of the source
(gen_header.py lines 7-39). -/
structure ScanResult where
  includes : List Str
  declarations : List Str
  namespaces : List Str
  manganese_macros : List Str
deriving DecidableEq, Repr

/-- `extract_includes_and_declarations` (gen_header.py lines 7-39).  The
Python loop appends each line's contribution at the end of the four lists;
prepending the head line's contribution to the scan of the remaining lines
yields the same four sequences. -/
def extract_includes_and_declarations (file_content : List Str) (source_filename : Str) :
    ScanResult :=
  match file_content with
  | [] => ⟨[], [], [], []⟩
  | line :: rest =>
    let r := extract_includes_and_declarations rest source_filename
    match classifyLine source_filename line with
    | LineClass.incKept t => { r with includes := t :: r.includes }
    | LineClass.incSelf => r
    | LineClass.macroLine t => { r with manganese_macros := t :: r.manganese_macros }
    | LineClass.funcLine rt nm args =>
      { r with declarations := mkDeclaration rt nm args :: r.declarations }
    | LineClass.nsLine n => { r with namespaces := n :: r.namespaces }
    | LineClass.other => r

/-- `pathlib.PurePath.suffix`: the part of the name from the last dot on,
empty when there is no dot, the dot is the first character, or the dot is the
last character. -/
def path_suffix (name : Str) : Str :=
  let afterRev := name.reverse.takeWhile (fun c => !(c = '.'))
  if afterRev.length = name.length then []
  else if afterRev.length = 0 then []
  else if afterRev.length + 1 = name.length then []
  else '.' :: afterRev.reverse

/-- `pathlib.PurePath.stem`: the name without its suffix. -/
def path_stem (name : Str) : Str :=
  if path_suffix name = [] then name else name.take (name.length - (path_suffix name).length)

/-- ASCII model of Python `str.upper()` applied to one character. -/
def upperChar (c : Char) : Char :=
  if 'a' ≤ c && c ≤ 'z' then Char.ofNat (c.toNat - 32) else c

/-- `include_guard = f"\x7bsource_path.stem.upper()\x7d_H"` (gen_header.py
lines 63-65). -/
def include_guard (name : Str) : Str := (path_stem name).map upperChar ++ str "_H"

/-- Concatenation of a list of character lists. -/
def joinAll : List Str → Str
  | [] => []
  | x :: xs => x ++ joinAll xs

/-- The successive `f.write(...)` arguments of `generate_header_file`
(gen_header.py lines 68-97), in order. -/
def headerChunks (g : Str) (s : ScanResult) : List Str :=
  [str "#ifndef " ++ g ++ str "\n",
   str "#define " ++ g ++ str "\n\n"]
  ++ s.includes.map (fun i => i ++ str "\n")
  ++ [str "\n"]
  ++ (if s.manganese_macros = [] then [] else [str "MANGANESE_BEGIN\n"])
  ++ s.namespaces.map (fun n => str "namespace " ++ n ++ str " \x7b\n\n")
  ++ s.declarations.map (fun d => d ++ str "\n")
  ++ [str "\n"]
  ++ s.namespaces.map (fun _ => str "\x7d\n")
  ++ (if s.manganese_macros = [] then [] else [str "\nMANGANESE_END\n\n"])
  ++ [str "#endif // " ++ g ++ str "\n"]

/-- The full text written to the header file. -/
def headerText (g : Str) (s : ScanResult) : Str := joinAll (headerChunks g s)

/-- The header text produced for a located source file with name
`source_name` (used both for the self-include guard and the include guard)
and content `content`. -/
def generate_header_text (source_name : Str) (content : List Str) : Str :=
  headerText (include_guard source_name)
    (extract_includes_and_declarations content source_name)

/-- Split a text into its lines at `'\n'` (Python `str.split("\n")`
semantics: a trailing newline yields a final empty line). -/
def splitLines : Str → List Str
  | [] => [[]]
  | c :: r =>
    if c = '\n' then [] :: splitLines r
    else
      match splitLines r with
      | h :: t => (c :: h) :: t
      | [] => [[c]]

/-- Rebuild a text from its lines, terminating each line with `'\n'`. -/
def joinLines : List Str → Str
  | [] => []
  | x :: xs => x ++ '\n' :: joinLines xs

/-- The two text lines (opening line and blank line) contributed by each
namespace entry. -/
def nsOpenLines : List Str → List Str
  | [] => []
  | n :: rest => (str "namespace " ++ n ++ str " \x7b") :: [] :: nsOpenLines rest

/-- The individual text lines written by `generate_header_file`, in order:
the same text as `headerChunks`, with each multi-line chunk split at its
newlines. -/
def headerLineList (g : Str) (s : ScanResult) : List Str :=
  [str "#ifndef " ++ g, str "#define " ++ g, []]
  ++ s.includes ++ [[]]
  ++ (if s.manganese_macros = [] then [] else [str "MANGANESE_BEGIN"])
  ++ nsOpenLines s.namespaces
  ++ s.declarations ++ [[]]
  ++ s.namespaces.map (fun _ => str "\x7d")
  ++ (if s.manganese_macros = [] then [] else [[], str "MANGANESE_END", []])
  ++ [str "#endif // " ++ g]

/-- Oracle describing what the file system answers for one requested
filename: whether `find_source_file` finds a path, whether that path's suffix
is `.cpp`, the found path's own name and content, and whether the sibling
header path can be opened for writing. -/
structure FileLookup where
  found : Bool
  suffixCpp : Bool
  name : Str
  content : List Str
  writable : Bool

/-- File-system oracle, one answer per requested filename. -/
abbrev FileSys := Str → FileLookup

/-- Observable outcome of one driver step. -/
inductive RunMsg where
  | usage
  | notFound (requested : Str)
  | generated (header : Str)
deriving Repr

/-- `generate_header_file` (gen_header.py lines 50-99) for one filename:
a missing file or a wrong suffix prints a message and returns (non-fatal);
an unwritable header path raises an uncaught exception, modelled as
`Except.error`; otherwise the header text is written. -/
def generate_header_file (fs : FileSys) (fname : Str) : Except Unit RunMsg :=
  let fl := fs fname
  if fl.found = false || fl.suffixCpp = false then Except.ok (RunMsg.notFound fname)
  else if fl.writable then
    Except.ok (RunMsg.generated (generate_header_text fl.name fl.content))
  else Except.error ()

/-- Sequential processing of a list of filenames; an uncaught exception
aborts the remaining files. -/
def processAll (fs : FileSys) : List Str → Except Unit (List RunMsg)
  | [] => Except.ok []
  | f :: rest =>
    match generate_header_file fs f with
    | Except.error e => Except.error e
    | Except.ok m => (processAll fs rest).map (fun ms => m :: ms)

/-- The `__main__` block (gen_header.py lines 102-107): `argv` includes the
script name; unless exactly one further argument is given only the usage
message is printed, otherwise each argument after the script name is
processed in order. -/
def main_run (fs : FileSys) (argv : List Str) : Except Unit (List RunMsg) :=
  if argv.length ≠ 2 then Except.ok [RunMsg.usage]
  else processAll fs argv.tail

/-- The middle chunks of the header (between the guard-opening pair and the
guard-closing line). -/
def headerChunksMid (s : ScanResult) : List Str :=
  s.includes.map (fun i => i ++ str "\n")
  ++ [str "\n"]
  ++ (if s.manganese_macros = [] then [] else [str "MANGANESE_BEGIN\n"])
  ++ s.namespaces.map (fun n => str "namespace " ++ n ++ str " \x7b\n\n")
  ++ s.declarations.map (fun d => d ++ str "\n")
  ++ [str "\n"]
  ++ s.namespaces.map (fun _ => str "\x7d\n")
  ++ (if s.manganese_macros = [] then [] else [str "\nMANGANESE_END\n\n"])

/-- What one line contributes to the `includes` sequence: the first rule of
the classifier, with the self-include suppressed. -/
def include_contribution (source_filename line : Str) : Option Str :=
  match include_capture line with
  | some inc => if inc = source_filename then none else some (strip line)
  | none => none

/-- A file system in which every requested name is found, is a `.cpp` file,
and has a writable header path. -/
def fsAllGood : FileSys := fun fname => ⟨true, true, fname, [], true⟩

/-- A file system in which no requested name is found. -/
def fsMissing : FileSys := fun fname => ⟨false, true, fname, [], true⟩

/-- A file system in which every requested name is found as a valid `.cpp`
file but no header path can be opened for writing. -/
def fsUnwritable : FileSys := fun fname => ⟨true, true, fname, [], false⟩

/-- What one line contributes to the `declarations` sequence. -/
def decl_contribution (source_filename line : Str) : Option Str :=
  match classifyLine source_filename line with
  | LineClass.funcLine rt nm args => some (mkDeclaration rt nm args)
  | _ => none

/-- What one line contributes to the `namespaces` sequence. -/
def ns_contribution (source_filename line : Str) : Option Str :=
  match classifyLine source_filename line with
  | LineClass.nsLine x => some x
  | _ => none

/-! ## Helper lemmas -/

theorem joinAll_append (a b : List Str) : joinAll (a ++ b) = joinAll a ++ joinAll b := by
  induction a with
  | nil => simp [joinAll]
  | cons x xs ih => simp [joinAll, ih, List.append_assoc]

theorem headerChunks_decomp (g : Str) (s : ScanResult) :
    headerChunks g s =
      [str "#ifndef " ++ g ++ str "\n", str "#define " ++ g ++ str "\n\n"]
        ++ headerChunksMid s ++ [str "#endif // " ++ g ++ str "\n"] := by
  simp [headerChunks, headerChunksMid, List.append_assoc]

theorem include_contribution_eq_classify (n l : Str) :
    include_contribution n l =
      (match classifyLine n l with
       | LineClass.incKept t => some t
       | _ => none) := by
  unfold include_contribution classifyLine
  cases hic : include_capture l with
  | some inc =>
    by_cases h : inc = n <;> simp [h]
  | none =>
    cases define_capture l with
    | some t => simp
    | none =>
      cases hfm : funcMatch l with
      | some g => rcases g with ⟨rt, nm, args⟩; simp
      | none =>
        cases namespace_capture l with
        | some ns => simp
        | none => simp

/-- The `includes` sequence of the scan is exactly the in-order filter-map of
the include rule over the source lines. -/
theorem scan_includes_eq (c : List Str) (n : Str) :
    (extract_includes_and_declarations c n).includes =
      c.filterMap (include_contribution n) := by
  induction c with
  | nil => rfl
  | cons l rest ih =>
    simp only [extract_includes_and_declarations, List.filterMap_cons]
    rw [include_contribution_eq_classify]
    cases classifyLine n l <;> simp [ih]

/-! ## Claim theorems -/

/-- C1: the claim says the invocation surface accepts one or more bare
filenames and processes each independently.  The driver's `len(sys.argv) != 2`
guard rejects every invocation with more than one filename, printing only the
usage message and generating nothing — even though the `for file in
sys.argv[1:]` loop shows multi-file processing was intended.  For a single
filename, a NotFound result is indeed non-fatal (a message, no exception). -/
theorem claim1_driver_rejects_multiple_files :
    main_run fsAllGood [str "gen_header.py", str "a.cpp", str "b.cpp"] =
      Except.ok [RunMsg.usage]
    ∧ main_run fsMissing [str "gen_header.py", str "a.cpp"] =
      Except.ok [RunMsg.notFound (str "a.cpp")] :=
  ⟨rfl, rfl⟩

/-- C2: an include directive whose captured name equals the source file's own
name is dropped; every other recognized include directive appears in the
`includes` sequence stripped, in original first-seen order, with no
duplicates removed — the sequence is exactly the in-order filter-map of the
include rule over the source lines. -/
theorem claim2_self_include_suppressed (content : List Str) (source_filename : Str) :
    (extract_includes_and_declarations content source_filename).includes =
      content.filterMap (fun line =>
        match include_capture line with
        | some inc => if inc = source_filename then none else some (strip line)
        | none => none) := by
  rw [scan_includes_eq]; rfl

/-- C3: for every source filename and every file content, the emitted
header's include-guard identifier is the uppercase of the filename's stem
followed by `_H`; it brackets the header (`#ifndef`/`#define` opening pair
and the `#endif` closing line) and is computed from the filename alone,
independent of the content. -/
theorem claim3_guard_from_stem (name : Str) (content : List Str) :
    ∃ mid, generate_header_text name content =
      str "#ifndef " ++ include_guard name ++ str "\n"
        ++ (str "#define " ++ include_guard name ++ str "\n\n")
        ++ mid ++ (str "#endif // " ++ include_guard name ++ str "\n")
      ∧ include_guard name = (path_stem name).map upperChar ++ str "_H" := by
  refine ⟨joinAll (headerChunksMid (extract_includes_and_declarations content name)), ?_, rfl⟩
  unfold generate_header_text headerText
  rw [headerChunks_decomp, joinAll_append, joinAll_append]
  simp [joinAll, List.append_assoc]

/-- C6: the header text is a deterministic function of the classified scan
result and the guard identifier — two runs that scan to the same `ScanResult`
and derive the same guard produce byte-identical header output; in particular
rerunning the synthesizer on an unchanged source reproduces the same text. -/
theorem claim6_header_deterministic (n1 n2 : Str) (c1 c2 : List Str)
    (hscan : extract_includes_and_declarations c1 n1 =
      extract_includes_and_declarations c2 n2)
    (hguard : include_guard n1 = include_guard n2) :
    generate_header_text n1 c1 = generate_header_text n2 c2 := by
  unfold generate_header_text
  rw [hscan, hguard]

/-- Witness for C6 at a concrete unchanged source. -/
theorem claim6_witness :
    generate_header_text (str "a.cpp") [str "int f() \x7b"] =
      generate_header_text (str "a.cpp") [str "int f() \x7b"] :=
  claim6_header_deterministic (str "a.cpp") (str "a.cpp")
    [str "int f() \x7b"] [str "int f() \x7b"] rfl rfl

/-- C8 counterexample: the claim says a write failure is reported for the
file and does not abort the rest of the run.  On a found, valid `.cpp` source
whose header path cannot be opened for writing, the run instead terminates
with an uncaught exception (`Except.error`), producing no per-file report. -/
theorem claim8_cex :
    main_run fsUnwritable [str "gen_header.py", str "a.cpp"] = Except.error () := rfl

/-- C8 amended: if the target header path cannot be opened for writing, the
`open` raises an uncaught exception that terminates the whole run
immediately, with no per-file failure report; no remaining files are
processed (the driver accepts a single filename in any case). -/
theorem claim8_amended (fs : FileSys) (prog fname : Str)
    (h1 : (fs fname).found = true) (h2 : (fs fname).suffixCpp = true)
    (h3 : (fs fname).writable = false) :
    main_run fs [prog, fname] = Except.error () := by
  simp [main_run, processAll, generate_header_file, h1, h2, h3]

/-- Witness for C8 at a concrete file system. -/
theorem claim8_witness :
    (fsUnwritable (str "b.cpp")).found = true
    ∧ (fsUnwritable (str "b.cpp")).suffixCpp = true
    ∧ (fsUnwritable (str "b.cpp")).writable = false
    ∧ main_run fsUnwritable [str "prog", str "b.cpp"] = Except.error () :=
  ⟨rfl, rfl, rfl, claim8_amended fsUnwritable (str "prog") (str "b.cpp") rfl rfl rfl⟩

/-- C10: the self-inclusion guard compares the captured name against the
source file's full name including its extension, so an include directive
naming the derived header (`stem + ".h"`) is never suppressed: it appears in
the scan's include sequence. -/
theorem claim10_derived_header_not_suppressed (stem : Str) (content : List Str)
    (line : Str) (hmem : line ∈ content)
    (hcap : include_capture line = some (stem ++ str ".h")) :
    strip line ∈
      (extract_includes_and_declarations content (stem ++ str ".cpp")).includes := by
  rw [scan_includes_eq]
  refine List.mem_filterMap.mpr ⟨line, hmem, ?_⟩
  unfold include_contribution
  rw [hcap]
  have hne : stem ++ str ".h" ≠ stem ++ str ".cpp" := by
    intro h
    have hlen := congrArg List.length h
    rw [List.length_append, List.length_append] at hlen
    have h2 : (str ".h").length = 2 := rfl
    have h4 : (str ".cpp").length = 4 := rfl
    rw [h2, h4] at hlen
    omega
  simp [hne]

/-- Witness for C10: a source `foo.cpp` including `foo.h`. -/
theorem claim10_witness :
    (str "#include \"foo.h\"" ∈ [str "#include \"foo.h\""])
    ∧ include_capture (str "#include \"foo.h\"") = some (str "foo" ++ str ".h")
    ∧ strip (str "#include \"foo.h\"") ∈
        (extract_includes_and_declarations [str "#include \"foo.h\""]
          (str "foo" ++ str ".cpp")).includes :=
  ⟨by simp, by decide,
    claim10_derived_header_not_suppressed (str "foo") [str "#include \"foo.h\""]
      (str "#include \"foo.h\"") (by simp) (by decide)⟩

/-! ## Character-class lemmas -/

theorem identStart_not_ws {c : Char} (h : isIdentStart c = true) : isWS c = false := by
  cases hw : isWS c with
  | false => rfl
  | true =>
    simp only [isWS, Bool.or_eq_true, decide_eq_true_eq] at hw
    rcases hw with ((((h1 | h1) | h1) | h1) | h1) | h1 <;> subst h1 <;>
      exact absurd h (by decide)

theorem ws_not_wordChar {c : Char} (h : isWS c = true) : isWordChar c = false := by
  simp only [isWS, Bool.or_eq_true, decide_eq_true_eq] at h
  rcases h with ((((h1 | h1) | h1) | h1) | h1) | h1 <;> subst h1 <;> decide

theorem identStart_ne_hash {c : Char} (h : isIdentStart c = true) : c ≠ '#' := by
  intro he; subst he; exact absurd h (by decide)

/-! ## takeWhile / dropWhile helpers -/

theorem takeWhile_append_pos {α : Type} {p : α → Bool} {xs : List α} (ys : List α)
    (h : ∀ x ∈ xs, p x = true) :
    (xs ++ ys).takeWhile p = xs ++ ys.takeWhile p := by
  induction xs with
  | nil => simp
  | cons a l ih =>
    rw [List.cons_append, List.takeWhile_cons_of_pos (h a (by simp)), ih]
    · rfl
    · exact fun x hx => h x (by simp [hx])

theorem dropWhile_append_pos {α : Type} {p : α → Bool} {xs : List α} (ys : List α)
    (h : ∀ x ∈ xs, p x = true) :
    (xs ++ ys).dropWhile p = ys.dropWhile p := by
  induction xs with
  | nil => simp
  | cons a l ih =>
    rw [List.cons_append, List.dropWhile_cons_of_pos (h a (by simp)), ih]
    exact fun x hx => h x (by simp [hx])

/-- `dropWhile isWordChar` does not enter a block headed by whitespace or an
opening parenthesis. -/
theorem dropWhile_word_stop (w : Str) (t : Str) (hw : ∀ x ∈ w, isWS x = true) :
    (w ++ '(' :: t).dropWhile isWordChar = w ++ '(' :: t := by
  cases w with
  | nil =>
    rw [List.nil_append]
    exact List.dropWhile_cons_of_neg (by decide)
  | cons a l =>
    rw [List.cons_append]
    exact List.dropWhile_cons_of_neg (by simp [ws_not_wordChar (hw a (by simp))])

theorem takeWhile_word_stop (w : Str) (t : Str) (hw : ∀ x ∈ w, isWS x = true) :
    (w ++ '(' :: t).takeWhile isWordChar = [] := by
  cases w with
  | nil =>
    rw [List.nil_append]
    exact List.takeWhile_cons_of_neg (by decide)
  | cons a l =>
    rw [List.cons_append]
    exact List.takeWhile_cons_of_neg (by simp [ws_not_wordChar (hw a (by simp))])

/-! ## Soundness and completeness of the deterministic tail parse -/

/-- Soundness of `parseAfterRT`: a successful parse exhibits the shape
`\s+ <identifier> \s* ( <non-paren text> ) \s* {` with the two groups
recovered exactly. -/
theorem parseAfterRT_sound {s nm args : Str} (h : parseAfterRT s = some (nm, args)) :
    ∃ w1 d idt w2 w3 rest,
      s = w1 ++ (d :: idt) ++ w2 ++ '(' :: args ++ ')' :: w3 ++ '{' :: rest
      ∧ w1 ≠ [] ∧ (∀ x ∈ w1, isWS x = true)
      ∧ isIdentStart d = true ∧ (∀ x ∈ idt, isWordChar x = true)
      ∧ (∀ x ∈ w2, isWS x = true) ∧ (∀ x ∈ args, notParen x = true)
      ∧ (∀ x ∈ w3, isWS x = true) ∧ nm = d :: idt := by
  unfold parseAfterRT at h
  split at h
  · exact absurd h (by simp)
  next hts =>
  split at h
  next hd => exact absurd h (by simp)
  next d r hd =>
  split at h
  case isFalse => exact absurd h (by simp)
  case isTrue hdid =>
  split at h
  rotate_left
  · exact absurd h (by simp)
  next r2 heq2 =>
  split at h
  rotate_left
  · exact absurd h (by simp)
  next r3 heq3 =>
  split at h
  rotate_left
  · exact absurd h (by simp)
  next r4 heq4 =>
  injection h with h
  injection h with hnm hargs
  refine ⟨s.takeWhile isWS, d, r.takeWhile isWordChar,
    (r.dropWhile isWordChar).takeWhile isWS, r3.takeWhile isWS, r4, ?_, hts,
    fun x hx => List.mem_takeWhile_imp hx, hdid,
    fun x hx => List.mem_takeWhile_imp hx,
    fun x hx => List.mem_takeWhile_imp hx, ?_,
    fun x hx => List.mem_takeWhile_imp hx, hnm.symm⟩
  · -- reassemble the input from the takeWhile/dropWhile splits
    conv_lhs => rw [← List.takeWhile_append_dropWhile (p := isWS) (l := s)]
    rw [hd]
    have hr : r = r.takeWhile isWordChar ++ r.dropWhile isWordChar :=
      (List.takeWhile_append_dropWhile ..).symm
    conv_lhs => rw [hr]
    have hr2s : r.dropWhile isWordChar =
        (r.dropWhile isWordChar).takeWhile isWS ++ ('(' :: r2) := by
      conv_lhs =>
        rw [← List.takeWhile_append_dropWhile (p := isWS) (l := r.dropWhile isWordChar)]
      rw [heq2]
    conv_lhs => rw [hr2s]
    have hr3s : r2 = r2.takeWhile notParen ++ (')' :: r3) := by
      conv_lhs => rw [← List.takeWhile_append_dropWhile (p := notParen) (l := r2)]
      rw [heq3]
    conv_lhs => rw [hr3s]
    have hr4s : r3 = r3.takeWhile isWS ++ ('{' :: r4) := by
      conv_lhs => rw [← List.takeWhile_append_dropWhile (p := isWS) (l := r3)]
      rw [heq4]
    conv_lhs => rw [hr4s]
    rw [hargs]
    simp [List.append_assoc]
  · rw [← hargs]
    exact fun x hx => List.mem_takeWhile_imp hx

/-- Completeness of `parseAfterRT`: on an input of the shape
`\s+ <identifier> \s* ( <non-paren text> ) \s* { ...` the parse succeeds and
recovers the identifier and parameter groups exactly. -/
theorem parseAfterRT_complete (w1 w2 w3 idt params rest : Str) (d : Char)
    (hw1 : w1 ≠ []) (hw1ws : ∀ x ∈ w1, isWS x = true)
    (hd : isIdentStart d = true) (hidt : ∀ x ∈ idt, isWordChar x = true)
    (hw2 : ∀ x ∈ w2, isWS x = true) (hp : ∀ x ∈ params, notParen x = true)
    (hw3 : ∀ x ∈ w3, isWS x = true) :
    parseAfterRT
        (w1 ++ d :: (idt ++ (w2 ++ ('(' :: (params ++ (')' :: (w3 ++ ('{' :: rest))))))))
      = some (d :: idt, params) := by
  obtain ⟨a, w1x, rfl⟩ := List.exists_cons_of_ne_nil hw1
  have haw : isWS a = true := hw1ws a (by simp)
  have hts : ((a :: w1x) ++ d ::
      (idt ++ (w2 ++ ('(' :: (params ++ (')' :: (w3 ++ ('{' :: rest)))))))).takeWhile isWS
      ≠ [] := by
    rw [List.cons_append, List.takeWhile_cons_of_pos haw]
    simp
  have hd1 : ((a :: w1x) ++ d ::
      (idt ++ (w2 ++ ('(' :: (params ++ (')' :: (w3 ++ ('{' :: rest)))))))).dropWhile isWS
      = d :: (idt ++ (w2 ++ ('(' :: (params ++ (')' :: (w3 ++ ('{' :: rest))))))) := by
    rw [dropWhile_append_pos _ hw1ws]
    exact List.dropWhile_cons_of_neg (by simp [identStart_not_ws hd])
  have h2 : (idt ++ (w2 ++ ('(' :: (params ++ (')' :: (w3 ++ ('{' :: rest))))))).dropWhile
      isWordChar = w2 ++ ('(' :: (params ++ (')' :: (w3 ++ ('{' :: rest))))) := by
    rw [dropWhile_append_pos _ hidt]
    exact dropWhile_word_stop w2 _ hw2
  have h3 : (w2 ++ ('(' :: (params ++ (')' :: (w3 ++ ('{' :: rest)))))).dropWhile isWS
      = '(' :: (params ++ (')' :: (w3 ++ ('{' :: rest)))) := by
    rw [dropWhile_append_pos _ hw2]
    exact List.dropWhile_cons_of_neg (by decide)
  have h4 : (idt ++ (w2 ++ ('(' :: (params ++ (')' :: (w3 ++ ('{' :: rest))))))).takeWhile
      isWordChar = idt := by
    rw [takeWhile_append_pos _ hidt, takeWhile_word_stop _ _ hw2, List.append_nil]
  have h5 : (params ++ (')' :: (w3 ++ ('{' :: rest)))).dropWhile notParen
      = ')' :: (w3 ++ ('{' :: rest)) := by
    rw [dropWhile_append_pos _ hp]
    exact List.dropWhile_cons_of_neg (by decide)
  have h6 : (params ++ (')' :: (w3 ++ ('{' :: rest)))).takeWhile notParen = params := by
    rw [takeWhile_append_pos _ hp, List.takeWhile_cons_of_neg (by decide), List.append_nil]
  have h7 : (w3 ++ ('{' :: rest)).dropWhile isWS = '{' :: rest := by
    rw [dropWhile_append_pos _ hw3]
    exact List.dropWhile_cons_of_neg (by decide)
  unfold parseAfterRT
  rw [if_neg hts, hd1]
  simp [hd, h2, h3, h4, h5, h6, h7]

/-- Soundness of the lazy return-type search: a successful search decomposes
its input into a scanned extension (all inside the class `W`) followed by a
suffix accepted by `parseAfterRT`. -/
theorem searchRT_sound (W : Char → Bool) :
    ∀ (s acc rt nm args : Str), searchRT W acc s = some (rt, nm, args) →
      ∃ ext s2, s = ext ++ s2 ∧ (∀ x ∈ ext, W x = true) ∧ rt = acc.reverse ++ ext
        ∧ parseAfterRT s2 = some (nm, args) := by
  intro s
  induction s with
  | nil =>
    intro acc rt nm args h
    simp [searchRT, parseAfterRT] at h
  | cons c rest ih =>
    intro acc rt nm args h
    unfold searchRT at h
    cases hp : parseAfterRT (c :: rest) with
    | some v =>
      rw [hp] at h
      obtain ⟨nmv, argsv⟩ := v
      injection h with h
      injection h with h1 h2
      injection h2 with h2 h3
      exact ⟨[], c :: rest, by simp, by simp, by simp [h1.symm], by rw [hp, h2, h3]⟩
    | none =>
      rw [hp] at h
      by_cases hW : W c = true
      · rw [if_pos hW] at h
        obtain ⟨ext, s2, hs, hall, hrt, hps⟩ := ih (c :: acc) rt nm args h
        refine ⟨c :: ext, s2, by simp [hs], ?_, ?_, hps⟩
        · intro x hx
          rcases List.mem_cons.mp hx with hx | hx
          · subst hx; exact hW
          · exact hall x hx
        · rw [hrt, List.reverse_cons, List.append_assoc]
          rfl
      · rw [if_neg hW] at h
        exact absurd h (by simp)

/-- Completeness of the lazy return-type search: if every character of `ext`
lies in `W` and `parseAfterRT` accepts the suffix, the search succeeds. -/
theorem searchRT_isSome (W : Char → Bool) :
    ∀ (ext acc s2 : Str), (∀ x ∈ ext, W x = true) → (parseAfterRT s2).isSome = true →
      (searchRT W acc (ext ++ s2)).isSome = true := by
  intro ext
  induction ext with
  | nil =>
    intro acc s2 _ hps
    rw [List.nil_append]
    cases hs2 : s2 with
    | nil => rw [hs2] at hps; exact absurd hps (by decide)
    | cons c s2x =>
      rw [hs2] at hps
      cases hp : parseAfterRT (c :: s2x) with
      | some v => obtain ⟨nm, args⟩ := v; simp [searchRT, hp]
      | none => rw [hp] at hps; exact absurd hps (by simp)
  | cons c ext ih =>
    intro acc s2 hall hps
    rw [List.cons_append]
    cases hp : parseAfterRT (c :: (ext ++ s2)) with
    | some v => obtain ⟨nm, args⟩ := v; simp [searchRT, hp]
    | none =>
      have hrec := ih (c :: acc) s2 (fun x hx => hall x (by simp [hx])) hps
      simp [searchRT, hp, hall c (by simp), hrec]

/-- The `func_pattern` matcher with return-type class `W` succeeds exactly on
lines of the declarative shape `IsFuncShape W`. -/
theorem funcMatchW_isSome_iff (W : Char → Bool) (l : Str) :
    (funcMatchW W l).isSome = true ↔ IsFuncShape W l := by
  constructor
  · intro h
    cases hv : funcMatchW W l with
    | none => rw [hv] at h; exact absurd h (by simp)
    | some v =>
      obtain ⟨rt, nm, args⟩ := v
      unfold funcMatchW at hv
      cases hdl : l.dropWhile isWS with
      | nil => rw [hdl] at hv; exact absurd hv (by simp)
      | cons c rest =>
        rw [hdl] at hv
        try simp only [] at hv
        by_cases hc : isIdentStart c = true
        case neg => rw [if_neg hc] at hv; exact absurd hv (by simp)
        rw [if_pos hc] at hv
        obtain ⟨ext, s2, hs, hall, _, hps⟩ := searchRT_sound W rest [c] rt nm args hv
        obtain ⟨w1, d, idt, w2, w3, rest2, hs2, hw1, hw1ws, hdid, hidt, hw2, hpar, hw3, _⟩ :=
          parseAfterRT_sound hps
        refine ⟨l.takeWhile isWS, c, ext, w1, d, idt, w2, args, w3, rest2, ?_,
          fun x hx => List.mem_takeWhile_imp hx, hc, hall, hw1, hw1ws, hdid, hidt,
          hw2, hpar, hw3⟩
        conv_lhs => rw [← List.takeWhile_append_dropWhile (p := isWS) (l := l)]
        rw [hdl, hs, hs2]
        simp [List.append_assoc]
  · intro hshape
    obtain ⟨w0, c, rt1, w1, d, idt, w2, params, w3, rest, hl, hw0, hc, hrt1, hw1, hw1ws,
      hdid, hidt, hw2, hpar, hw3⟩ := hshape
    have hdl : l.dropWhile isWS
        = c :: (rt1 ++ (w1 ++ d :: (idt ++ (w2 ++ ('(' ::
            (params ++ (')' :: (w3 ++ ('{' :: rest))))))))) := by
      rw [hl]
      have hassoc : w0 ++ (c :: rt1) ++ w1 ++ (d :: idt) ++ w2 ++ '(' :: params
          ++ ')' :: w3 ++ '{' :: rest
          = w0 ++ (c :: (rt1 ++ (w1 ++ d :: (idt ++ (w2 ++ ('(' ::
              (params ++ (')' :: (w3 ++ ('{' :: rest)))))))))) := by
        simp [List.append_assoc]
      rw [hassoc, dropWhile_append_pos _ hw0]
      exact List.dropWhile_cons_of_neg (by simp [identStart_not_ws hc])
    unfold funcMatchW
    rw [hdl]
    simp only []
    rw [if_pos hc]
    have := searchRT_isSome W rt1 [c]
      (w1 ++ d :: (idt ++ (w2 ++ ('(' :: (params ++ (')' :: (w3 ++ ('{' :: rest))))))))
      hrt1
      (by rw [parseAfterRT_complete w1 w2 w3 idt params rest d hw1 hw1ws hdid hidt hw2
        hpar hw3]; rfl)
    exact this

/-- A successful `func_pattern` match pins the first non-whitespace character
of the line: it is a letter or an underscore. -/
theorem funcMatchW_head {W : Char → Bool} {l : Str} {v : Str × Str × Str}
    (h : funcMatchW W l = some v) :
    ∃ c rest, l.dropWhile isWS = c :: rest ∧ isIdentStart c = true := by
  unfold funcMatchW at h
  cases hdl : l.dropWhile isWS with
  | nil => rw [hdl] at h; exact absurd h (by simp)
  | cons c rest =>
    rw [hdl] at h
    try simp only [] at h
    by_cases hc : isIdentStart c = true
    · exact ⟨c, rest, rfl, hc⟩
    · rw [if_neg hc] at h; exact absurd h (by simp)

theorem dropLit_hash {t : Str} {c : Char} {rest : Str} (hne : c ≠ '#') :
    dropLit ('#' :: t) (c :: rest) = none := by
  unfold dropLit
  rw [if_neg (fun he => hne he.symm)]

/-- A line whose first non-whitespace character is not `#` cannot match the
include pattern. -/
theorem include_capture_none_of_head {l : Str} {c : Char} {rest : Str}
    (hd : l.dropWhile isWS = c :: rest) (hne : c ≠ '#') :
    include_capture l = none := by
  unfold include_capture
  rw [hd, (by decide : str "#include" = '#' :: str "include"), dropLit_hash hne]

/-- A line whose first non-whitespace character is not `#` cannot match the
define pattern. -/
theorem define_capture_none_of_head {l : Str} {c : Char} {rest : Str}
    (hd : l.dropWhile isWS = c :: rest) (hne : c ≠ '#') :
    define_capture l = none := by
  unfold define_capture
  rw [hd, (by decide : str "#define" = '#' :: str "define"), dropLit_hash hne]

/-- A line is classified as a function definition exactly when `func_pattern`
matches it: the include and define rules, which take precedence, can never
claim such a line (they require a leading `#`). -/
theorem isFuncLine_classify_iff (n l : Str) :
    isFuncLine (classifyLine n l) = true ↔ (funcMatch l).isSome = true := by
  constructor
  · intro h
    cases hfm : funcMatch l with
    | some v => simp
    | none =>
      exfalso
      cases hic : include_capture l with
      | some inc =>
        by_cases he : inc = n
        · simp [classifyLine, hic, he, isFuncLine] at h
        · simp [classifyLine, hic, he, isFuncLine] at h
      | none =>
        cases hdc : define_capture l with
        | some t => simp [classifyLine, hic, hdc, isFuncLine] at h
        | none =>
          cases hns : namespace_capture l with
          | some ns => simp [classifyLine, hic, hdc, hfm, hns, isFuncLine] at h
          | none => simp [classifyLine, hic, hdc, hfm, hns, isFuncLine] at h
  · intro h
    cases hfm : funcMatch l with
    | none => rw [hfm] at h; exact absurd h (by simp)
    | some v =>
      obtain ⟨rt, nm, args⟩ := v
      obtain ⟨c, rest, hd, hc⟩ := funcMatchW_head (W := rtClassCode) hfm
      have hic : include_capture l = none :=
        include_capture_none_of_head hd (identStart_ne_hash hc)
      have hdc : define_capture l = none :=
        define_capture_none_of_head hd (identStart_ne_hash hc)
      simp [classifyLine, hic, hdc, hfm, isFuncLine]

/-- C5 counterexample: the line `std::string get() {` is classified as a
function definition by the code (the regex class also admits `:`), but it has
no decomposition under the claim's stated token set, which omits the colon. -/
theorem claim5_cex :
    isFuncLine (classifyLine (str "foo.cpp") (str "std::string get() \x7b")) = true
    ∧ ¬ IsFuncShape rtClassClaim (str "std::string get() \x7b") := by
  refine ⟨by decide, ?_⟩
  intro hshape
  have h2 := (funcMatchW_isSome_iff rtClassClaim (str "std::string get() \x7b")).mpr hshape
  rw [(by decide : funcMatchW rtClassClaim (str "std::string get() \x7b") = none)] at h2
  simp at h2

/-- C5 amended: a line is classified as a function definition exactly when it
has the single-line shape `<return-type-tokens> <identifier>(<parameter-text>) {`
where the return-type token set permits letters, digits, underscore, colon,
`*`, `&`, `<`, `>`, and whitespace, and the identifier starts with a letter
or underscore. -/
theorem claim5_amended (n l : Str) :
    isFuncLine (classifyLine n l) = true ↔ IsFuncShape rtClassCode l :=
  (isFuncLine_classify_iff n l).trans (funcMatchW_isSome_iff rtClassCode l)

/-- C7: a line with no opening brace — in particular either line of a
function signature split across two lines — is never classified as a
function definition; it is silently ignored rather than reported. -/
theorem claim7_split_signature_ignored (n l : Str) (h : ('{' : Char) ∉ l) :
    isFuncLine (classifyLine n l) = false := by
  cases hb : isFuncLine (classifyLine n l) with
  | false => rfl
  | true =>
    exfalso
    have h1 := (isFuncLine_classify_iff n l).mp hb
    have h2 := (funcMatchW_isSome_iff rtClassCode l).mp h1
    obtain ⟨w0, c, rt1, w1, d, idt, w2, params, w3, rest, hl, -⟩ := h2
    apply h
    rw [hl]
    simp

/-- Witness for C7: the first line of a two-line signature. -/
theorem claim7_witness :
    (('{' : Char) ∉ str "int add(int a,")
    ∧ isFuncLine (classifyLine (str "foo.cpp") (str "int add(int a,")) = false :=
  ⟨by decide,
    claim7_split_signature_ignored (str "foo.cpp") (str "int add(int a,") (by decide)⟩

/-- C9: for a matched function-definition line with captured groups
(return type, identifier, parameter text), the scan records exactly the
prototype `<return-type> <identifier>(<parameters>);` with each component
stripped of surrounding whitespace. -/
theorem claim9_prototype_format (n l rt nm args : Str)
    (h : funcMatch l = some (rt, nm, args)) :
    (extract_includes_and_declarations [l] n).declarations =
      [strip rt ++ str " " ++ strip nm ++ str "(" ++ strip args ++ str ");"] := by
  obtain ⟨c, rest, hd, hc⟩ := funcMatchW_head (W := rtClassCode) h
  have hic : include_capture l = none :=
    include_capture_none_of_head hd (identStart_ne_hash hc)
  have hdc : define_capture l = none :=
    define_capture_none_of_head hd (identStart_ne_hash hc)
  simp [extract_includes_and_declarations, classifyLine, hic, hdc, h, mkDeclaration]

/-- Witness for C9 on a line with a qualified template return type and
padded parameter text. -/
theorem claim9_witness :
    funcMatch (str "const std::vector<int>& tail( int x ) \x7b")
      = some (str "const std::vector<int>&", str "tail", str " int x ")
    ∧ (extract_includes_and_declarations [str "const std::vector<int>& tail( int x ) \x7b"]
        (str "a.cpp")).declarations =
      [strip (str "const std::vector<int>&") ++ str " " ++ strip (str "tail") ++ str "("
        ++ strip (str " int x ") ++ str ");"] :=
  ⟨by decide,
    claim9_prototype_format (str "a.cpp") (str "const std::vector<int>& tail( int x ) \x7b")
      (str "const std::vector<int>&") (str "tail") (str " int x ") (by decide)⟩

/-! ## Line structure of the emitted header -/

theorem joinLines_append (a b : List Str) : joinLines (a ++ b) =
    joinLines a ++ joinLines b := by
  induction a with
  | nil => simp [joinLines]
  | cons x xs ih => simp [joinLines, ih, List.append_assoc]

theorem joinAll_map_line (xs : List Str) :
    joinAll (xs.map fun i => i ++ str "\n") = joinLines xs := by
  induction xs with
  | nil => rfl
  | cons x l ih =>
    simp only [List.map_cons, joinAll, joinLines, ih]
    simp [(show str "\n" = ['\n'] from rfl), List.append_assoc]

theorem joinAll_map_close (xs : List Str) :
    joinAll (xs.map fun _ => str "\x7d\n") = joinLines (xs.map fun _ => str "\x7d") := by
  induction xs with
  | nil => rfl
  | cons x l ih =>
    simp only [List.map_cons, joinAll, joinLines, ih]
    simp [(show str "\x7d\n" = str "\x7d" ++ ['\n'] from rfl), List.append_assoc]

theorem joinAll_map_namespace (xs : List Str) :
    joinAll (xs.map fun n => str "namespace " ++ n ++ str " \x7b\n\n")
      = joinLines (nsOpenLines xs) := by
  induction xs with
  | nil => rfl
  | cons x l ih =>
    simp only [List.map_cons, joinAll, nsOpenLines, joinLines, ih]
    simp [(show str " \x7b\n\n" = str " \x7b" ++ ['\n', '\n'] from rfl), List.append_assoc]

/-- The header text is exactly its line list, each line terminated by a
newline. -/
theorem headerText_eq_joinLines (g : Str) (s : ScanResult) :
    headerText g s = joinLines (headerLineList g s) := by
  unfold headerText headerChunks headerLineList
  simp only [joinAll_append, joinLines_append, joinAll_map_line, joinAll_map_close,
    joinAll_map_namespace]
  by_cases hm : s.manganese_macros = [] <;>
    simp [hm, joinAll, joinLines,
      (show str "\n" = ['\n'] from rfl),
      (show str "\n\n" = ['\n', '\n'] from rfl),
      (show str "MANGANESE_BEGIN\n" = str "MANGANESE_BEGIN" ++ ['\n'] from rfl),
      (show str "\nMANGANESE_END\n\n" = '\n' :: (str "MANGANESE_END" ++ ['\n', '\n'])
        from rfl),
      List.append_assoc]

theorem splitLines_append_cons (l rest : Str) (hl : ('\n' : Char) ∉ l) :
    splitLines (l ++ '\n' :: rest) = l :: splitLines rest := by
  induction l with
  | nil => simp [splitLines]
  | cons c l ih =>
    have hc : c ≠ '\n' := fun he => hl (by simp [he])
    have hl2 : ('\n' : Char) ∉ l := fun he => hl (by simp [he])
    rw [List.cons_append, splitLines, if_neg hc, ih hl2]

theorem splitLines_joinLines (L : List Str) (h : ∀ x ∈ L, ('\n' : Char) ∉ x) :
    splitLines (joinLines L) = L ++ [[]] := by
  induction L with
  | nil => rfl
  | cons x xs ih =>
    show splitLines (x ++ '\n' :: joinLines xs) = (x :: xs) ++ [[]]
    rw [splitLines_append_cons x (joinLines xs) (h x (by simp)),
      ih (fun y hy => h y (by simp [hy]))]
    rfl

/-! ## Scan-level entry properties -/

theorem scan_declarations_eq (c : List Str) (n : Str) :
    (extract_includes_and_declarations c n).declarations =
      c.filterMap (decl_contribution n) := by
  induction c with
  | nil => rfl
  | cons l rest ih =>
    simp only [extract_includes_and_declarations, List.filterMap_cons]
    cases hcl : classifyLine n l <;> simp [decl_contribution, hcl, ih]

theorem scan_namespaces_eq (c : List Str) (n : Str) :
    (extract_includes_and_declarations c n).namespaces =
      c.filterMap (ns_contribution n) := by
  induction c with
  | nil => rfl
  | cons l rest ih =>
    simp only [extract_includes_and_declarations, List.filterMap_cons]
    cases hcl : classifyLine n l <;> simp [ns_contribution, hcl, ih]

theorem classify_funcLine_inv {n l rt nm args : Str}
    (h : classifyLine n l = LineClass.funcLine rt nm args) :
    funcMatch l = some (rt, nm, args) := by
  cases hic : include_capture l with
  | some inc =>
    by_cases he : inc = n
    · simp [classifyLine, hic, he] at h
    · simp [classifyLine, hic, he] at h
  | none =>
    cases hdc : define_capture l with
    | some t => simp [classifyLine, hic, hdc] at h
    | none =>
      cases hfm : funcMatch l with
      | some v =>
        obtain ⟨rt2, nm2, args2⟩ := v
        simp [classifyLine, hic, hdc, hfm] at h
        obtain ⟨h1, h2, h3⟩ := h
        simp [h1, h2, h3]
      | none =>
        cases hns : namespace_capture l with
        | some x => simp [classifyLine, hic, hdc, hfm, hns] at h
        | none => simp [classifyLine, hic, hdc, hfm, hns] at h

theorem classify_nsLine_inv {n l x : Str} (h : classifyLine n l = LineClass.nsLine x) :
    ∃ ns0, namespace_capture l = some ns0 ∧ x = strip ns0 := by
  cases hic : include_capture l with
  | some inc =>
    by_cases he : inc = n
    · simp [classifyLine, hic, he] at h
    · simp [classifyLine, hic, he] at h
  | none =>
    cases hdc : define_capture l with
    | some t => simp [classifyLine, hic, hdc] at h
    | none =>
      cases hfm : funcMatch l with
      | some v =>
        obtain ⟨rt2, nm2, args2⟩ := v
        simp [classifyLine, hic, hdc, hfm] at h
      | none =>
        cases hns : namespace_capture l with
        | some ns0 =>
          have hval : classifyLine n l = LineClass.nsLine (strip ns0) := by
            simp [classifyLine, hic, hdc, hfm, hns]
          rw [hval] at h
          injection h with h
          exact ⟨ns0, rfl, h.symm⟩
        | none => simp [classifyLine, hic, hdc, hfm, hns] at h

theorem identStart_wordChar {c : Char} (h : isIdentStart c = true) :
    isWordChar c = true := by
  simp only [isIdentStart, Bool.or_eq_true] at h
  rcases h with h | h
  · simp [isWordChar, h]
  · rw [decide_eq_true_eq] at h; subst h; decide

/-- A captured namespace identifier is a non-empty run of word characters. -/
theorem namespace_capture_sound {l ns : Str} (h : namespace_capture l = some ns) :
    ns ≠ [] ∧ ∀ x ∈ ns, isWordChar x = true := by
  unfold namespace_capture at h
  cases hdl : dropLit (str "namespace") (l.dropWhile isWS) with
  | none => rw [hdl] at h; exact absurd h (by simp)
  | some rest =>
    rw [hdl] at h
    cases rest with
    | nil => exact absurd h (by simp)
    | cons c r0 =>
      try simp only [] at h
      by_cases hc : isWS c = true
      case neg => rw [if_neg hc] at h; exact absurd h (by simp)
      rw [if_pos hc] at h
      cases hdw : (c :: r0).dropWhile isWS with
      | nil => rw [hdw] at h; exact absurd h (by simp)
      | cons b r =>
        rw [hdw] at h
        try simp only [] at h
        by_cases hb : isIdentStart b = true
        case neg => rw [if_neg hb] at h; exact absurd h (by simp)
        rw [if_pos hb] at h
        split at h
        · injection h with h
          subst h
          constructor
          · simp
          · intro x hx
            rcases List.mem_cons.mp hx with hx | hx
            · subst hx; exact identStart_wordChar hb
            · exact List.mem_takeWhile_imp hx
        · exact absurd h (by simp)

theorem dropLit_sound : ∀ (lit s rest : Str), dropLit lit s = some rest → s = lit ++ rest := by
  intro lit
  induction lit with
  | nil =>
    intro s rest h
    simp_all [dropLit]
  | cons c cs ih =>
    intro s rest h
    cases s with
    | nil => exact absurd h (by simp [dropLit])
    | cons d ds =>
      unfold dropLit at h
      by_cases he : c = d
      · rw [if_pos he] at h
        rw [List.cons_append, ← ih ds rest h, he]
      · rw [if_neg he] at h; exact absurd h (by simp)

theorem strip_subset (l : Str) : ∀ x ∈ strip l, x ∈ l := by
  intro x hx
  unfold strip at hx
  rw [List.mem_reverse] at hx
  have h1 : x ∈ (l.dropWhile isWS).reverse := List.dropWhile_subset _ hx
  rw [List.mem_reverse] at h1
  exact List.dropWhile_subset _ h1

theorem dropWhile_append_single {α : Type} {p : α → Bool} {x : α} (a : List α)
    (hx : p x = false) : ∃ y, (a ++ [x]).dropWhile p = y ++ [x] := by
  induction a with
  | nil =>
    exact ⟨[], List.dropWhile_cons_of_neg (by simp [hx])⟩
  | cons b l ih =>
    by_cases hb : p b = true
    · obtain ⟨y, hy⟩ := ih
      exact ⟨y, by rw [List.cons_append, List.dropWhile_cons_of_pos hb, hy]⟩
    · refine ⟨b :: l, ?_⟩
      rw [List.cons_append, List.dropWhile_cons_of_neg (by simp [hb])]

theorem strip_head_of_not_ws {l : Str} {c : Char} {t : Str}
    (hd : l.dropWhile isWS = c :: t) (hc : isWS c = false) :
    ∃ t2, strip l = c :: t2 := by
  unfold strip
  rw [hd, (show (c :: t).reverse = t.reverse ++ [c] by simp)]
  obtain ⟨y, hy⟩ := dropWhile_append_single t.reverse hc
  rw [hy]
  exact ⟨y.reverse, by simp⟩

/-- The stripped text of an include-matching line starts with `#`. -/
theorem include_capture_strip_head {l inc : Str} (h : include_capture l = some inc) :
    ∃ t2, strip l = '#' :: t2 := by
  unfold include_capture at h
  cases hdl : dropLit (str "#include") (l.dropWhile isWS) with
  | none => rw [hdl] at h; exact absurd h (by simp)
  | some rest =>
    have hs := dropLit_sound _ _ _ hdl
    have hd : l.dropWhile isWS = '#' :: (str "include" ++ rest) := by
      rw [hs, (by decide : str "#include" = '#' :: str "include"), List.cons_append]
    exact strip_head_of_not_ws hd (by decide)

theorem upperChar_eq_newline {c : Char} (h : upperChar c = '\n') : c = '\n' := by
  unfold upperChar at h
  split at h
  case isTrue hcond =>
    exfalso
    rw [Bool.and_eq_true, decide_eq_true_eq, decide_eq_true_eq] at hcond
    obtain ⟨h1, h2⟩ := hcond
    have h97 : 97 ≤ c.toNat := h1
    have h122 : c.toNat ≤ 122 := h2
    obtain ⟨n, hn⟩ : ∃ n, c.toNat = n := ⟨_, rfl⟩
    rw [hn] at h97 h122 h
    interval_cases n <;> exact absurd h (by decide)
  case isFalse => exact h

theorem path_stem_subset (name : Str) : ∀ x ∈ path_stem name, x ∈ name := by
  intro x hx
  unfold path_stem at hx
  split at hx
  · exact hx
  · exact List.take_subset _ _ hx

/-- The include guard derived from a newline-free filename is newline-free. -/
theorem include_guard_no_newline {name : Str} (hn : ('\n' : Char) ∉ name) :
    ('\n' : Char) ∉ include_guard name := by
  intro hmem
  unfold include_guard at hmem
  rcases List.mem_append.mp hmem with hmem | hmem
  · obtain ⟨y, hy, hup⟩ := List.mem_map.mp hmem
    exact hn (upperChar_eq_newline hup ▸ path_stem_subset name y hy)
  · exact absurd hmem (by decide)

/-- Every character of a captured `func_pattern` group comes from the matched
line itself. -/
theorem funcMatch_groups_subset {l rt nm args : Str}
    (h : funcMatch l = some (rt, nm, args)) :
    ∀ x, (x ∈ rt ∨ x ∈ nm ∨ x ∈ args) → x ∈ l := by
  unfold funcMatch funcMatchW at h
  cases hdl : l.dropWhile isWS with
  | nil => rw [hdl] at h; exact absurd h (by simp)
  | cons c rest =>
    rw [hdl] at h
    try simp only [] at h
    by_cases hc : isIdentStart c = true
    case neg => rw [if_neg hc] at h; exact absurd h (by simp)
    rw [if_pos hc] at h
    obtain ⟨ext, s2, hs, _, hrt, hps⟩ := searchRT_sound rtClassCode rest [c] rt nm args h
    obtain ⟨w1, d, idt, w2, w3, rest2, hs2, _, _, _, _, _, _, _, hnm⟩ :=
      parseAfterRT_sound hps
    intro x hx
    have hmem : x ∈ l.dropWhile isWS := by
      rw [hdl, hs, hs2]
      rcases hx with hx | hx | hx
      · rw [hrt] at hx
        simp only [List.reverse_cons, List.reverse_nil, List.nil_append,
          List.singleton_append, List.mem_cons, List.mem_append] at hx
        simp only [List.mem_cons, List.mem_append]
        tauto
      · rw [hnm] at hx
        simp only [List.mem_cons] at hx
        simp only [List.mem_cons, List.mem_append]
        tauto
      · simp only [List.mem_cons, List.mem_append]
        tauto
    exact List.dropWhile_subset _ hmem

/-- Entries of the `includes` sequence start with `#` and inherit
newline-freedom from the source lines. -/
theorem scan_includes_props {c : List Str} {n : Str}
    (hc : ∀ l ∈ c, ('\n' : Char) ∉ l) :
    ∀ i ∈ (extract_includes_and_declarations c n).includes,
      (∃ t, i = '#' :: t) ∧ ('\n' : Char) ∉ i := by
  intro i hi
  rw [scan_includes_eq] at hi
  obtain ⟨l, hl, hcon⟩ := List.mem_filterMap.mp hi
  unfold include_contribution at hcon
  cases hic : include_capture l with
  | none => rw [hic] at hcon; exact absurd hcon (by simp)
  | some inc =>
    rw [hic] at hcon
    try simp only [] at hcon
    by_cases he : inc = n
    · rw [if_pos he] at hcon; exact absurd hcon (by simp)
    · rw [if_neg he] at hcon
      injection hcon with hcon
      subst hcon
      refine ⟨include_capture_strip_head hic, ?_⟩
      intro hmem
      exact hc l hl (strip_subset l _ hmem)

/-- Entries of the `declarations` sequence contain an opening parenthesis and
inherit newline-freedom from the source lines. -/
theorem scan_declarations_props {c : List Str} {n : Str}
    (hc : ∀ l ∈ c, ('\n' : Char) ∉ l) :
    ∀ d ∈ (extract_includes_and_declarations c n).declarations,
      (('(' : Char) ∈ d) ∧ ('\n' : Char) ∉ d := by
  intro d hd
  rw [scan_declarations_eq] at hd
  obtain ⟨l, hl, hcon⟩ := List.mem_filterMap.mp hd
  unfold decl_contribution at hcon
  cases hcl : classifyLine n l with
  | incKept t => rw [hcl] at hcon; exact absurd hcon (by simp)
  | incSelf => rw [hcl] at hcon; exact absurd hcon (by simp)
  | macroLine t => rw [hcl] at hcon; exact absurd hcon (by simp)
  | nsLine y => rw [hcl] at hcon; exact absurd hcon (by simp)
  | other => rw [hcl] at hcon; exact absurd hcon (by simp)
  | funcLine rt nm args =>
    rw [hcl] at hcon
    try simp only [] at hcon
    injection hcon with hcon
    subst hcon
    have hfm := classify_funcLine_inv hcl
    have hsub := funcMatch_groups_subset hfm
    constructor
    · simp only [mkDeclaration, List.mem_append]
      have : ('(' : Char) ∈ str "(" := by decide
      tauto
    · intro hmem
      simp only [mkDeclaration, List.mem_append] at hmem
      have hsp : ('\n' : Char) ∉ str " " := by decide
      have hop : ('\n' : Char) ∉ str "(" := by decide
      have hcl2 : ('\n' : Char) ∉ str ");" := by decide
      have hline := hc l hl
      rcases hmem with ((((hx | hx) | hx) | hx) | hx) | hx
      · exact hline (hsub '\n' (Or.inl (strip_subset rt '\n' hx)))
      · exact hsp hx
      · exact hline (hsub '\n' (Or.inr (Or.inl (strip_subset nm '\n' hx))))
      · exact hop hx
      · exact hline (hsub '\n' (Or.inr (Or.inr (strip_subset args '\n' hx))))
      · exact hcl2 hx

/-- Entries of the `namespaces` sequence consist of word characters only. -/
theorem scan_namespaces_props {c : List Str} {n : Str} :
    ∀ x ∈ (extract_includes_and_declarations c n).namespaces,
      ∀ ch ∈ x, isWordChar ch = true := by
  intro x hx ch hch
  rw [scan_namespaces_eq] at hx
  obtain ⟨l, hl, hcon⟩ := List.mem_filterMap.mp hx
  unfold ns_contribution at hcon
  cases hcl : classifyLine n l with
  | incKept t => rw [hcl] at hcon; exact absurd hcon (by simp)
  | incSelf => rw [hcl] at hcon; exact absurd hcon (by simp)
  | macroLine t => rw [hcl] at hcon; exact absurd hcon (by simp)
  | funcLine rt nm args => rw [hcl] at hcon; exact absurd hcon (by simp)
  | other => rw [hcl] at hcon; exact absurd hcon (by simp)
  | nsLine y =>
    rw [hcl] at hcon
    try simp only [] at hcon
    injection hcon with hcon
    subst hcon
    obtain ⟨ns0, hns, hy⟩ := classify_nsLine_inv hcl
    rw [hy] at hch
    exact (namespace_capture_sound hns).2 ch (strip_subset ns0 ch hch)

theorem mem_nsOpenLines {x : Str} {xs : List Str} (h : x ∈ nsOpenLines xs) :
    x = [] ∨ ∃ n, n ∈ xs ∧ x = str "namespace " ++ n ++ str " \x7b" := by
  induction xs with
  | nil => simp [nsOpenLines] at h
  | cons a l ih =>
    simp only [nsOpenLines, List.mem_cons] at h
    rcases h with h | h | h
    · exact Or.inr ⟨a, by simp, h⟩
    · exact Or.inl h
    · rcases ih h with h2 | ⟨n, hn, he⟩
      · exact Or.inl h2
      · exact Or.inr ⟨n, by simp [hn], he⟩

theorem count_close_nsOpenLines (xs : List Str) :
    (nsOpenLines xs).count (str "\x7d") = 0 := by
  rw [List.count_eq_zero]
  intro hmem
  rcases mem_nsOpenLines hmem with h | ⟨n, _, h⟩
  · exact absurd h (by decide)
  · have hl := congrArg List.length h
    rw [List.length_append, List.length_append,
      (show (str "\x7d").length = 1 from rfl),
      (show (str "namespace ").length = 10 from rfl),
      (show (str " \x7b").length = 2 from rfl)] at hl
    omega

theorem count_close_map_const (xs : List Str) :
    (xs.map fun _ => str "\x7d").count (str "\x7d") = xs.length := by
  induction xs with
  | nil => rfl
  | cons a l ih => simp [List.count_cons, ih]

/-- The emitted header contains exactly one `}` line per recorded namespace
entry: no other emitted line can be a bare closing brace. -/
theorem count_close_headerLineList (g : Str) (s : ScanResult)
    (hinc : ∀ i ∈ s.includes, ∃ t, i = '#' :: t)
    (hdec : ∀ d ∈ s.declarations, ('(' : Char) ∈ d) :
    (headerLineList g s).count (str "\x7d") = s.namespaces.length := by
  have hz1 : ¬(str "#ifndef " ++ g) = str "\x7d" := by
    intro he
    have hl := congrArg List.length he
    rw [List.length_append, (show (str "#ifndef ").length = 8 from rfl),
      (show (str "\x7d").length = 1 from rfl)] at hl
    omega
  have hz2 : ¬(str "#define " ++ g) = str "\x7d" := by
    intro he
    have hl := congrArg List.length he
    rw [List.length_append, (show (str "#define ").length = 8 from rfl),
      (show (str "\x7d").length = 1 from rfl)] at hl
    omega
  have hz10 : ¬(str "#endif // " ++ g) = str "\x7d" := by
    intro he
    have hl := congrArg List.length he
    rw [List.length_append, (show (str "#endif // ").length = 10 from rfl),
      (show (str "\x7d").length = 1 from rfl)] at hl
    omega
  have hzinc : s.includes.count (str "\x7d") = 0 := by
    rw [List.count_eq_zero]
    intro hmem
    obtain ⟨t, ht⟩ := hinc _ hmem
    rw [(show str "\x7d" = '}' :: [] from rfl)] at ht
    injection ht with h1 h2
    exact absurd h1 (by decide)
  have hzdec : s.declarations.count (str "\x7d") = 0 := by
    rw [List.count_eq_zero]
    intro hmem
    have hp := hdec _ hmem
    rw [(show str "\x7d" = ['}'] from rfl)] at hp
    simp at hp
  unfold headerLineList
  by_cases hm : s.manganese_macros = [] <;>
    simp [hm, List.count_append, List.count_cons, hz1, hz2, hz10, hzinc, hzdec,
      count_close_nsOpenLines, count_close_map_const,
      (show ¬(str "MANGANESE_BEGIN") = str "\x7d" by decide),
      (show ¬(str "MANGANESE_END") = str "\x7d" by decide),
      (show ¬([] : Str) = str "\x7d" by decide),
      (show ¬(str "\x7d") = ([] : Str) by decide)]

/-- Every line of the emitted header is newline-free when the source lines
and the filename are. -/
theorem headerLineList_no_newline {name : Str} {content : List Str}
    (hcontent : ∀ l ∈ content, ('\n' : Char) ∉ l) (hname : ('\n' : Char) ∉ name) :
    ∀ x ∈ headerLineList (include_guard name)
        (extract_includes_and_declarations content name), ('\n' : Char) ∉ x := by
  have hincp := scan_includes_props (n := name) hcontent
  have hdecp := scan_declarations_props (n := name) hcontent
  have hnsp := scan_namespaces_props (c := content) (n := name)
  have hguard := include_guard_no_newline hname
  have hifn : ('\n' : Char) ∉ str "#ifndef " := by decide
  have hdefn : ('\n' : Char) ∉ str "#define " := by decide
  have hendn : ('\n' : Char) ∉ str "#endif // " := by decide
  have hg1 : ('\n' : Char) ∉ str "#ifndef " ++ include_guard name := by
    intro hmem
    rcases List.mem_append.mp hmem with hmem | hmem
    · exact hifn hmem
    · exact hguard hmem
  have hg2 : ('\n' : Char) ∉ str "#define " ++ include_guard name := by
    intro hmem
    rcases List.mem_append.mp hmem with hmem | hmem
    · exact hdefn hmem
    · exact hguard hmem
  have hg10 : ('\n' : Char) ∉ str "#endif // " ++ include_guard name := by
    intro hmem
    rcases List.mem_append.mp hmem with hmem | hmem
    · exact hendn hmem
    · exact hguard hmem
  have hns : ∀ x ∈ nsOpenLines
      (extract_includes_and_declarations content name).namespaces,
      ('\n' : Char) ∉ x := by
    intro x hx hmem
    rcases mem_nsOpenLines hx with h | ⟨n2, hn2, h⟩
    · subst h; simp at hmem
    · subst h
      rcases List.mem_append.mp hmem with hmem | hmem
      · rcases List.mem_append.mp hmem with hmem | hmem
        · exact absurd hmem (by decide)
        · have := hnsp n2 hn2 '\n' hmem
          exact absurd this (by decide)
      · exact absurd hmem (by decide)
  intro x hx
  unfold headerLineList at hx
  rcases List.mem_append.mp hx with hx | h10
  · rcases List.mem_append.mp hx with hx | h9
    · rcases List.mem_append.mp hx with hx | h8
      · rcases List.mem_append.mp hx with hx | h7
        · rcases List.mem_append.mp hx with hx | h6
          · rcases List.mem_append.mp hx with hx | h5
            · rcases List.mem_append.mp hx with hx | h4
              · rcases List.mem_append.mp hx with hx | h3
                · rcases List.mem_append.mp hx with h1 | h2
                  · simp only [List.mem_cons, List.not_mem_nil, or_false] at h1
                    rcases h1 with h | h | h
                    · subst h; exact hg1
                    · subst h; exact hg2
                    · subst h; simp
                  · exact (hincp x h2).2
                · simp only [List.mem_cons, List.not_mem_nil, or_false] at h3
                  subst h3; simp
              · split at h4
                · simp at h4
                · simp only [List.mem_cons, List.not_mem_nil, or_false] at h4
                  subst h4; decide
            · exact hns x h5
          · exact (hdecp x h6).2
        · simp only [List.mem_cons, List.not_mem_nil, or_false] at h7
          subst h7; simp
      · obtain ⟨n2, _, h⟩ := List.mem_map.mp h8
        subst h; decide
    · split at h9
      · simp at h9
      · simp only [List.mem_cons, List.not_mem_nil, or_false] at h9
        rcases h9 with h | h | h
        · subst h; simp
        · subst h; decide
        · subst h; simp
  · simp only [List.mem_cons, List.not_mem_nil, or_false] at h10
    subst h10; exact hg10

/-- C4: in the emitted header text, the number of lines consisting of a bare
closing brace equals the number of namespace-opening lines recorded during
classification — for any input, balanced or not (the tool never verifies
brace balance).  The hypotheses only say that the scanned lines and the
filename contain no embedded newline, which is guaranteed by `readlines`. -/
theorem claim4_namespace_close_symmetry (name : Str) (content : List Str)
    (hcontent : ∀ l ∈ content, ('\n' : Char) ∉ l) (hname : ('\n' : Char) ∉ name) :
    (splitLines (generate_header_text name content)).count (str "\x7d")
      = (extract_includes_and_declarations content name).namespaces.length := by
  have hlines := headerLineList_no_newline hcontent hname
  rw [(show generate_header_text name content = headerText (include_guard name)
      (extract_includes_and_declarations content name) from rfl),
    headerText_eq_joinLines, splitLines_joinLines _ hlines, List.count_append,
    count_close_headerLineList _ _
      (fun i hi => (scan_includes_props hcontent i hi).1)
      (fun d hd => (scan_declarations_props hcontent d hd).1)]
  rw [(show List.count (str "\x7d") [([] : Str)] = 0 from by decide), Nat.add_zero]

/-- Witness for C4 on a source with an unbalanced brace structure (an extra
closing line and two namespace openings). -/
theorem claim4_witness :
    (∀ l ∈ [str "namespace a \x7b", str "namespace b \x7b", str "int f() \x7b", str "\x7d\x7d\x7d"],
      ('\n' : Char) ∉ l)
    ∧ (('\n' : Char) ∉ str "u.cpp")
    ∧ (splitLines (generate_header_text (str "u.cpp")
        [str "namespace a \x7b", str "namespace b \x7b", str "int f() \x7b", str "\x7d\x7d\x7d"])).count
          (str "\x7d")
      = (extract_includes_and_declarations
          [str "namespace a \x7b", str "namespace b \x7b", str "int f() \x7b", str "\x7d\x7d\x7d"]
          (str "u.cpp")).namespaces.length :=
  ⟨by decide, by decide,
    claim4_namespace_close_symmetry (str "u.cpp")
      [str "namespace a \x7b", str "namespace b \x7b", str "int f() \x7b", str "\x7d\x7d\x7d"]
      (by decide) (by decide)⟩

example : include_capture (str "  #include <vector> // x") = some (str "vector") := by decide
example : include_capture (str "#include \"foo.h\"") = some (str "foo.h") := by decide
example : include_capture (str "#include <a>b>") = some (str "a>b") := by decide
example : include_capture (str "#include<vector>") = none := by decide
example : define_capture (str "#define MANGANESE_BEGIN namespace xx \x7b") =
    some (str "MANGANESE_BEGIN") := by decide
example : namespace_capture (str "namespace foo \x7b") = some (str "foo") := by decide
example : funcMatch (str "int main(int argc, char** argv) \x7b") =
    some (str "int", str "main", str "int argc, char** argv") := by decide
example : funcMatch (str "std::string get() \x7b") =
    some (str "std::string", str "get", str "") := by decide
example : funcMatchW rtClassClaim (str "std::string get() \x7b") = none := by decide
example : funcMatch (str "unsigned long foo( ) \x7b") =
    some (str "unsigned long", str "foo", str " ") := by decide
example : funcMatch (str "int add(int a,") = none := by decide
example : funcMatch (str "       int b) \x7b") = none := by decide
example : namespace_capture (str "namespace foo() \x7b") = none := by decide
example : funcMatch (str "namespace foo() \x7b") =
    some (str "namespace", str "foo", str "") := by decide
example : path_suffix (str "a.cpp") = str ".cpp" := by decide
example : path_suffix (str ".cpp") = [] := by decide
example : path_suffix (str "foo.") = [] := by decide
example : path_stem (str "ab.tar.cpp") = str "ab.tar" := by decide
example : include_guard (str "foo.cpp") = str "FOO_H" := by decide

end GenHeader
